import Mathlib

/-!
Verification of the Hamiltonian Neural Network module
(`deepchem/models/torch_models/hnn.py`).

The embedding models a rank-2 torch tensor as a list of rows of rationals
together with its last-axis width and its `requires_grad` flag.  The
multilayer perceptron and the reverse-mode autodiff engine are external
collaborators (the MLP lives in `layers.py`, which is not part of this
fragment; the gradient engine is `torch.autograd`), so they are modelled as
a black-box structure following the spec's capability interface: a per-row
scalar network together with the exact gradient of that scalar with respect
to the row, shape-preserving as autodiff guarantees.
-/

namespace HNNSpec

/-- A rank-2 torch tensor of shape `(data.length, cols)`: a batch of
phase-space rows, plus the autograd tracking flag `requires_grad`. -/
structure Tensor where
  cols : Nat
  data : List (List ℚ)
  requiresGrad : Bool
deriving DecidableEq

/-- Rectangularity: every row has the tensor's last-axis width `cols`,
as torch tensors guarantee by construction. -/
def Tensor.WF (t : Tensor) : Prop := ∀ r ∈ t.data, r.length = t.cols

instance (t : Tensor) : Decidable t.WF :=
  inferInstanceAs (Decidable (∀ r ∈ t.data, r.length = t.cols))

/-- `z.requires_grad_(True)`: the in-place torch mutation that turns on
gradient tracking on the caller's tensor. -/
def Tensor.withGrad (t : Tensor) : Tensor :=
  { t with requiresGrad := true }

/-- Modelled from the spec: the two external collaborators absent from the
source fragment — `MultilayerPerceptron` (from `layers.py`, hidden widths and
activation abstracted away; output width 1 per row) and the autodiff engine
(`torch.autograd.grad`).  `run r` is the MLP's length-1 output row for the
phase-space row `r`; `gradRow r` is the exact gradient of the scalar
`(run r)[0]` with respect to `r`, which autodiff returns with the shape of
`r`. -/
structure Net where
  run : List ℚ → List ℚ
  gradRow : List ℚ → List ℚ
  run_len : ∀ r, (run r).length = 1
  grad_len : ∀ r, (gradRow r).length = r.length

/-- `squeeze(-1)` on a tensor of shape `(N, 1)`: drop the trailing
singleton axis, giving shape `(N,)`. -/
def squeezeLast (m : List (List ℚ)) : List ℚ :=
  m.map (fun r => r.headD 0)

/-- `HNN.hamiltonian` (hnn.py lines 107-131):
`H = self.net(z).squeeze(-1); return H`.  The network is applied row-wise
along the last axis, so the batch output is the per-row scalar for every
row; the `requires_grad` flag plays no role in the numeric value. -/
def HNN.hamiltonian (net : Net) (z : Tensor) : List ℚ :=
  squeezeLast (z.data.map net.run)

/-- `torch.autograd.grad(H.sum(), z, create_graph=True)[0]` where
`H = self.net(z).squeeze(-1)` (hnn.py lines 181-183).  The call raises if
`z` does not require grad, hence the `Option`.  Since `H.sum()` is the sum
of per-row scalars and each row's scalar depends only on that row, the
gradient block for row `i` is the row gradient `gradRow` of row `i`. -/
def gradCall (net : Net) (z : Tensor) : Option (List (List ℚ)) :=
  if z.requiresGrad then some (z.data.map net.gradRow) else none

/-- `HNN.symplectic_gradient` (hnn.py lines 133-192):

  if not z.requires_grad: z = z.requires_grad_(True)
  H = self.net(z).squeeze(-1)
  grad_H = grad(H.sum(), z, create_graph=True)[0]
  dim = z.shape[-1] // 2
  dH_dq = grad_H[..., :dim]; dH_dp = grad_H[..., dim:]
  dq_dt = dH_dp; dp_dt = -dH_dq
  return torch.cat([dq_dt, dp_dt], dim=-1)

Since `requires_grad_` mutates the caller's tensor, the embedding returns
the final state of `z` alongside the result. -/
def HNN.symplectic_gradient (net : Net) (z : Tensor) :
    Option (List (List ℚ) × Tensor) :=
  let z1 := if z.requiresGrad then z else z.withGrad
  match gradCall net z1 with
  | none => none
  | some gradH =>
      let dim := z1.cols / 2
      let out := gradH.map (fun g =>
        let dH_dq := g.take dim
        let dH_dp := g.drop dim
        let dq_dt := dH_dp
        let dp_dt := dH_dq.map (fun x => -x)
        dq_dt ++ dp_dt)
      some (out, z1)

/-- `HNN.forward` (hnn.py lines 76-105): the body is
`return self.symplectic_gradient(z)`, with no test of `self.training`,
although the docstring promises mode-dependent dispatch.  The ambient mode
flag is passed explicitly (`training = true` for training mode) and, as in
the source, ignored. -/
def HNN.forward (net : Net) (_training : Bool) (z : Tensor) :
    Option (List (List ℚ) × Tensor) :=
  HNN.symplectic_gradient net z

/-- `HNNModel.predict_hamiltonian` (hnn.py lines 245-262):
`self.model.eval()` switches the mode flag (irrelevant to `hamiltonian`,
which never reads it); `torch.tensor(X, dtype=torch.float32, device=...)`
builds a fresh tensor from the numpy batch, with gradient tracking off;
then `hamiltonian` is evaluated and `detach().cpu().numpy()` returns the
plain host array of its values, the identity on the numbers themselves. -/
def HNNModel.predict_hamiltonian (net : Net) (X : List (List ℚ)) : List ℚ :=
  let X_tensor : Tensor := ⟨(X.headD []).length, X, false⟩
  let H := HNN.hamiltonian net X_tensor
  H

/-- Modelled from the spec: the symplectic-gradient algorithm as the spec
words it for an input of last dimension `2 * k` — compute the gradient `g`
of `sum(H(z))` with respect to `z` (enabling tracking first if needed),
split `g` into `dH/dq` (first `k` components of the last axis) and `dH/dp`
(last `k` components), and return `concat(dH/dp, -dH/dq)` along the last
axis.  Used only as the comparison point for the refinement claim. -/
def symplecticGradientSpec (net : Net) (k : Nat) (z : Tensor) :
    Option (List (List ℚ) × Tensor) :=
  let z1 := if z.requiresGrad then z else z.withGrad
  match gradCall net z1 with
  | none => none
  | some gradH =>
      let out := gradH.map (fun g =>
        let dH_dq := g.take k
        let dH_dp := g.drop k
        dH_dp ++ dH_dq.map (fun x => -x))
      some (out, z1)

/-- A concrete network for witnesses: `H(r) = Σ rᵢ²`, whose row gradient
is `2 r`. -/
def sqNet : Net where
  run := fun r => [(r.map (fun x => x * x)).sum]
  gradRow := fun r => r.map (fun x => 2 * x)
  run_len := fun _ => rfl
  grad_len := fun r => by simp

/-- The spec's concrete scenario input: `z = [[0.5, -0.3]]`, `d_input = 2`,
gradient tracking off. -/
def zEven : Tensor := ⟨2, [[1/2, -3/10]], false⟩

/-- A batch with an odd last dimension, for the odd-width claims. -/
def zOdd : Tensor := ⟨3, [[1, 2, 3]], false⟩

theorem symplectic_gradient_eq (net : Net) (z : Tensor) :
    HNN.symplectic_gradient net z =
      some (z.data.map (fun g =>
          (net.gradRow g).drop (z.cols / 2) ++
            ((net.gradRow g).take (z.cols / 2)).map (fun x => -x)),
        ⟨z.cols, z.data, true⟩) := by
  obtain ⟨c, d, b⟩ := z
  cases b <;>
    simp [HNN.symplectic_gradient, gradCall, Tensor.withGrad, List.map_map,
      Function.comp]

theorem symplectic_gradient_row_length (net : Net) (z : Tensor)
    (hwf : z.WF) :
    ∃ out z1, HNN.symplectic_gradient net z = some (out, z1) ∧
      out.length = z.data.length ∧ ∀ r ∈ out, r.length = z.cols := by
  refine ⟨_, _, symplectic_gradient_eq net z, by simp, ?_⟩
  intro r hr
  simp only [List.mem_map] at hr
  obtain ⟨s, hs, rfl⟩ := hr
  have hlen := net.grad_len s
  have hsc := hwf s hs
  simp [hlen, hsc]
  omega

/-- C1 (code bug): the claim — and the docstring of `forward` — say that in
evaluation mode `forward` returns `hamiltonian(z)`, one energy scalar per
row.  The body of `forward` is `return self.symplectic_gradient(z)` with no
mode test, so at the spec's concrete scenario `z = [[0.5, -0.3]]` the
evaluation-mode call returns the symplectic gradient `[[-3/5, -1]]` of
shape (1, 2), while `hamiltonian` returns `[17/50]` of shape (1,). -/
theorem forward_eval_mode_returns_derivative :
    HNN.forward sqNet false zEven =
      some ([[-3/5, -1]], ⟨2, [[1/2, -3/10]], true⟩) ∧
    HNN.hamiltonian sqNet zEven = [17/50] := by
  refine ⟨?_, ?_⟩ <;>
    norm_num [HNN.forward, HNN.symplectic_gradient, HNN.hamiltonian,
      gradCall, Tensor.withGrad, squeezeLast, sqNet, zEven]

/-- C2: for every network and every well-formed input of shape (N, 2k),
`forward` in training mode returns `symplectic_gradient(z)`, whose batch
part has N rows each of width 2k. -/
theorem forward_training_mode (net : Net) (k : Nat) (z : Tensor)
    (hc : z.cols = 2 * k) (hwf : z.WF) :
    HNN.forward net true z = HNN.symplectic_gradient net z ∧
    ∃ out z1, HNN.forward net true z = some (out, z1) ∧
      out.length = z.data.length ∧ ∀ r ∈ out, r.length = 2 * k := by
  refine ⟨rfl, ?_⟩
  obtain ⟨out, z1, heq, hlen, hrow⟩ := symplectic_gradient_row_length net z hwf
  exact ⟨out, z1, heq, hlen, fun r hr => hc ▸ hrow r hr⟩

/-- Witness for C2 at the concrete scenario input. -/
theorem forward_training_mode_witness :
    zEven.cols = 2 * 1 ∧ zEven.WF ∧
    (HNN.forward sqNet true zEven = HNN.symplectic_gradient sqNet zEven ∧
      ∃ out z1, HNN.forward sqNet true zEven = some (out, z1) ∧
        out.length = zEven.data.length ∧ ∀ r ∈ out, r.length = 2 * 1) :=
  ⟨by decide, by decide,
    forward_training_mode sqNet 1 zEven (by decide) (by decide)⟩

/-- C3: on every input whose last dimension is `2 * k`, the source's
`symplectic_gradient` — gradient of `sum(H(z))`, split at
`dim = cols // 2`, `concat(dH/dp, -dH/dq)` — coincides with the spec's
description, which splits the gradient at exactly `k`. -/
theorem symplectic_gradient_refines_spec (net : Net) (k : Nat) (z : Tensor)
    (hc : z.cols = 2 * k) :
    HNN.symplectic_gradient net z = symplecticGradientSpec net k z := by
  obtain ⟨c, d, b⟩ := z
  have hk : c / 2 = k := by simp at hc; omega
  cases b <;>
    simp [HNN.symplectic_gradient, symplecticGradientSpec, gradCall,
      Tensor.withGrad, hk]

/-- Witness for C3 at the concrete scenario input. -/
theorem symplectic_gradient_refines_spec_witness :
    zEven.cols = 2 * 1 ∧
    HNN.symplectic_gradient sqNet zEven = symplecticGradientSpec sqNet 1 zEven :=
  ⟨by decide, symplectic_gradient_refines_spec sqNet 1 zEven (by decide)⟩

/-- C4: for every well-formed input whose last dimension is an even number
`2 * k`, the batch returned by `symplectic_gradient` has exactly the shape
of the input: the same number of rows, each of width `2 * k`. -/
theorem symplectic_gradient_shape_even (net : Net) (k : Nat) (z : Tensor)
    (hc : z.cols = 2 * k) (hwf : z.WF) :
    ∃ out z1, HNN.symplectic_gradient net z = some (out, z1) ∧
      out.length = z.data.length ∧ ∀ r ∈ out, r.length = 2 * k := by
  obtain ⟨out, z1, heq, hlen, hrow⟩ := symplectic_gradient_row_length net z hwf
  exact ⟨out, z1, heq, hlen, fun r hr => hc ▸ hrow r hr⟩

/-- Witness for C4 at the concrete scenario input. -/
theorem symplectic_gradient_shape_even_witness :
    zEven.cols = 2 * 1 ∧ zEven.WF ∧
    ∃ out z1, HNN.symplectic_gradient sqNet zEven = some (out, z1) ∧
      out.length = zEven.data.length ∧ ∀ r ∈ out, r.length = 2 * 1 :=
  ⟨by decide, by decide,
    symplectic_gradient_shape_even sqNet 1 zEven (by decide) (by decide)⟩

/-- C5: `symplectic_gradient` succeeds on every input, in particular on
inputs without gradient tracking: the tensor handed to the gradient step
always has tracking enabled, so the `grad` call never fails for lack of
tracking. -/
theorem symplectic_gradient_total (net : Net) (z : Tensor) :
    ∃ out z1, HNN.symplectic_gradient net z = some (out, z1) ∧
      z1.requiresGrad = true :=
  ⟨_, _, symplectic_gradient_eq net z, rfl⟩

/-- C6: the value of `hamiltonian` is independent of the input's
`requires_grad` flag: two tensors with the same data and width but
different tracking flags give identical outputs. -/
theorem hamiltonian_requires_grad_invariant (net : Net) (c : Nat)
    (d : List (List ℚ)) (b1 b2 : Bool) :
    HNN.hamiltonian net ⟨c, d, b1⟩ = HNN.hamiltonian net ⟨c, d, b2⟩ :=
  rfl

/-- C7: for every batch of shape `(n_samples, d)`, `predict_hamiltonian`
returns exactly `hamiltonian` applied to the batch converted to a fresh
untracked tensor, a plain array of length `n_samples`. -/
theorem predict_hamiltonian_roundtrip (net : Net) (X : List (List ℚ))
    (d : Nat) (_hX : ∀ r ∈ X, r.length = d) :
    HNNModel.predict_hamiltonian net X = HNN.hamiltonian net ⟨d, X, false⟩ ∧
    (HNNModel.predict_hamiltonian net X).length = X.length := by
  constructor
  · rfl
  · simp [HNNModel.predict_hamiltonian, HNN.hamiltonian, squeezeLast]

/-- Witness for C7 at the concrete scenario batch. -/
theorem predict_hamiltonian_roundtrip_witness :
    (∀ r ∈ [[(1 : ℚ)/2, -3/10]], r.length = 2) ∧
    (HNNModel.predict_hamiltonian sqNet [[1/2, -3/10]] =
        HNN.hamiltonian sqNet ⟨2, [[1/2, -3/10]], false⟩ ∧
      (HNNModel.predict_hamiltonian sqNet [[1/2, -3/10]]).length = 1) :=
  ⟨by decide,
    predict_hamiltonian_roundtrip sqNet [[1/2, -3/10]] 2 (by decide)⟩

/-- C8: on an input whose last dimension `n` is odd, `symplectic_gradient`
raises no validation error: it returns a result in which each row's
gradient is silently split at `n / 2` (floor) — the first `n / 2`
components become `dH/dq`, the remaining ones `dH/dp` — and the output is
`concat(dH/dp, -dH/dq)`. -/
theorem symplectic_gradient_odd_no_validation (net : Net) (z : Tensor)
    (n : Nat) (hc : z.cols = n) (hodd : Odd n) :
    HNN.symplectic_gradient net z =
      some (z.data.map (fun r =>
          (net.gradRow r).drop (n / 2) ++
            ((net.gradRow r).take (n / 2)).map (fun x => -x)),
        ⟨z.cols, z.data, true⟩) := by
  subst hc
  exact symplectic_gradient_eq net z

/-- Witness for C8 at an odd-width input. -/
theorem symplectic_gradient_odd_no_validation_witness :
    zOdd.cols = 3 ∧ Odd 3 ∧
    HNN.symplectic_gradient sqNet zOdd =
      some (zOdd.data.map (fun r =>
          (sqNet.gradRow r).drop (3 / 2) ++
            ((sqNet.gradRow r).take (3 / 2)).map (fun x => -x)),
        ⟨zOdd.cols, zOdd.data, true⟩) :=
  ⟨by decide, by decide,
    symplectic_gradient_odd_no_validation sqNet zOdd 3 (by decide) (by decide)⟩

/-- C9: shape preservation is not limited to even widths: for every
well-formed input, odd last dimension included, the output batch has the
input's number of rows and the input's last-axis width, since the slices
at `cols / 2` and their concatenation restore the full width. -/
theorem symplectic_gradient_shape_all (net : Net) (z : Tensor)
    (hwf : z.WF) :
    ∃ out z1, HNN.symplectic_gradient net z = some (out, z1) ∧
      out.length = z.data.length ∧ ∀ r ∈ out, r.length = z.cols :=
  symplectic_gradient_row_length net z hwf

/-- Witness for C9 at an odd-width input. -/
theorem symplectic_gradient_shape_all_witness :
    zOdd.WF ∧
    ∃ out z1, HNN.symplectic_gradient sqNet zOdd = some (out, z1) ∧
      out.length = zOdd.data.length ∧ ∀ r ∈ out, r.length = zOdd.cols :=
  ⟨by decide, symplectic_gradient_shape_all sqNet zOdd (by decide)⟩

/-- C10: `symplectic_gradient` hands back the caller's tensor with
`requires_grad` true and the data untouched: when tracking was off the
in-place `requires_grad_(True)` flipped the flag the caller observes, and
when tracking was already on the tensor is returned unchanged. -/
theorem symplectic_gradient_mutates_flag (net : Net) (z : Tensor) :
    ∃ out, HNN.symplectic_gradient net z =
        some (out, ⟨z.cols, z.data, true⟩) ∧
      (z.requiresGrad = true → (⟨z.cols, z.data, true⟩ : Tensor) = z) := by
  refine ⟨_, symplectic_gradient_eq net z, ?_⟩
  intro h
  obtain ⟨c, d, b⟩ := z
  simp_all

/-- Witness for C10 at a tracking-enabled input. -/
theorem symplectic_gradient_mutates_flag_witness :
    ∃ out, HNN.symplectic_gradient sqNet ⟨2, [[1, 2]], true⟩ =
        some (out, ⟨(⟨2, [[1, 2]], true⟩ : Tensor).cols,
          (⟨2, [[1, 2]], true⟩ : Tensor).data, true⟩) ∧
      ((⟨2, [[1, 2]], true⟩ : Tensor).requiresGrad = true →
        (⟨(⟨2, [[1, 2]], true⟩ : Tensor).cols,
          (⟨2, [[1, 2]], true⟩ : Tensor).data, true⟩ : Tensor) =
          ⟨2, [[1, 2]], true⟩) :=
  symplectic_gradient_mutates_flag sqNet ⟨2, [[1, 2]], true⟩

end HNNSpec
